import Mathlib

/-!
Verification development for the `Simulator` dispatch core
(`agnostic_simulator/simulator.py`) and the IonQ JSON translator
(`tangelo/backendbuddy/translator/translate_json_ionq.py`).

The pure dispatch, validation and normalization logic is embedded
directly from the Python source.  The external backend libraries
(qulacs, qiskit, projectq, the Q# toolkit) are external collaborators:
their raw outputs (statevectors, per-shot samples, frequency arrays) are
supplied through a `BackendOracle` record, and every piece of
post-processing the Python source applies to those raw outputs is
translated faithfully.  Machine floats are modelled by exact rationals;
complex amplitudes by pairs of rationals.
-/

/-- A complex amplitude, modelled as an exact pair (real part, imaginary
part) of rationals. -/
structure Cplx where
  re : ℚ
  im : ℚ
deriving DecidableEq, Repr

/-- `abs(amplitude)**2` from the source, computed exactly:
`|a|^2 = re^2 + im^2`. -/
def Cplx.absSq (c : Cplx) : ℚ := c.re * c.re + c.im * c.im

/-- Modelled from the spec: the abstract `Gate` class (not under `src/`):
"tagged variant ...; attributes: name, target qubit index, optional
control qubit index, optional real-valued rotation parameter". -/
structure Gate where
  name : String
  target : Nat
  control : Option Nat
  parameter : Option ℚ
deriving DecidableEq, Repr

/-- Modelled from the spec: the abstract `Circuit` class (not under
`src/`): "ordered sequence of Gate; attributes: width (qubit count),
size (gate count), is_mixed_state (true iff circuit contains a
measurement instruction)". -/
structure Circuit where
  width : Nat
  gates : List Gate
deriving DecidableEq, Repr

/-- `circuit.size`: the gate count. -/
def Circuit.size (c : Circuit) : Nat := c.gates.length

/-- `circuit.is_mixed_state`: true iff the circuit contains a MEASURE
instruction. -/
def Circuit.is_mixed_state (c : Circuit) : Bool :=
  c.gates.any (fun g => g.name == "MEASURE")

/-- Python truthiness of an optional integer (`not self.n_shots` is true
when `n_shots` is `None` or `0`). -/
def optTruthy : Option Nat → Bool
  | none => false
  | some k => k != 0

/-- The per-backend capability record of `backend_info` in the source. -/
structure BackendInfo where
  statevector_available : Bool
  statevector_order : Option String
  noisy_simulation : Bool
deriving DecidableEq, Repr

/-- The `backend_info` table from the source (`simulator.py`, lines
33-37); an unknown backend id is a `KeyError`, modelled as `none`. -/
def backend_info : String → Option BackendInfo
  | "qiskit" => some ⟨true, some "msq_first", true⟩
  | "qulacs" => some ⟨true, some "msq_first", true⟩
  | "projectq" => some ⟨true, some "msq_first", false⟩
  | "qdk" => some ⟨false, none, false⟩
  | _ => none

/-- Binary digits of `i`, most significant bit first, empty for `0`
(the recursive core of Python's `bin`). -/
def natToBinCore : Nat → List Bool
  | 0 => []
  | i + 1 => natToBinCore ((i + 1) / 2) ++ [(i + 1) % 2 == 1]
decreasing_by exact Nat.div_lt_self (Nat.succ_pos i) one_lt_two

/-- `bin(i).split('b')[-1]` as a list of bits, most significant first;
Python renders `bin(0)` as `"0"`. -/
def natToBinList (i : Nat) : List Bool :=
  if i = 0 then [false] else natToBinCore i

/-- `"0" * (n - len(bs)) + bs`: zero-pad a bit string on the left to
length `n` (no truncation when it is already longer). -/
def padBits (bs : List Bool) (n : Nat) : List Bool :=
  List.replicate (n - bs.length) false ++ bs

/-- Decode a bit string, most significant bit first, back to a natural
number (`int(s, 2)` in the source). -/
def bitsToNat (bs : List Bool) : Nat :=
  bs.foldl (fun acc b => 2 * acc + (if b then 1 else 0)) 0

/-- `Simulator.__int_to_binstr` (source lines 438-442): ordinary binary,
zero-padded on the left to `n_qubits`, reversed iff the backend's
statevector order is `"msq_first"`. -/
def int_to_binstr (order : Option String) (i n_qubits : Nat) : List Bool :=
  let bs := natToBinList i
  let state_binstr := padBits bs n_qubits
  if order == some "msq_first" then state_binstr.reverse else state_binstr

/-- `collections.Counter` over a list: distinct elements in order of
first occurrence, each with its multiplicity. -/
def counter {α : Type} [DecidableEq α] (l : List α) : List (α × Nat) :=
  l.eraseDups.map (fun x => (x, l.count x))

/-- The mutable configuration the `Simulator` constructor stores on the
instance: target id, shot count, noise-model presence (the source treats
the noise model as opaque, testing only truthiness), frequency
threshold, plus the capability flags copied from `backend_info`. -/
structure Simulator where
  target : String
  n_shots : Option Nat
  noise_model : Bool
  freq_threshold : ℚ
  statevector_available : Bool
  statevector_order : Option String
  noisy_simulation : Bool
deriving DecidableEq, Repr

/-- The errors `Simulator.__init__` can raise. -/
inductive InitError
  | UnknownBackend
  | UnsupportedNoiseModel
  | ShotsRequired
deriving DecidableEq, Repr

/-- `Simulator.__init__` (source lines 42-70): look the target up in
`backend_info`, copy the capability flags, then raise if a noise model
is passed to a backend without noisy simulation, then raise if no shot
count was given while the statevector is unavailable or a noise model is
present.  The constructor performs no backend call: it only validates
and stores configuration. -/
def Simulator.init (target : String) (n_shots : Option Nat)
    (noise_model : Bool) : Except InitError Simulator :=
  match backend_info target with
  | none => .error .UnknownBackend
  | some info =>
    if noise_model && !info.noisy_simulation then
      .error .UnsupportedNoiseModel
    else if !(optTruthy n_shots) && (!info.statevector_available || noise_model) then
      .error .ShotsRequired
    else
      .ok ⟨target, n_shots, noise_model, 1 / 10 ^ 10,
           info.statevector_available, info.statevector_order,
           info.noisy_simulation⟩

/-- Raw outputs of the external backend libraries (external
collaborators per the spec): sampled basis-state integers, final
statevectors, qiskit's counts table (bitstrings in qiskit's native
msq-first order), projectq's joined per-qubit sample strings, the Q#
frequency array, and the draws of `scipy.stats.rv_discrete` used when
re-sampling an exact distribution. -/
structure BackendOracle where
  qulacs_samples : List Nat
  qulacs_statevector : List Cplx
  qiskit_counts : List (List Bool × Nat)
  qiskit_statevector : List Cplx
  projectq_samples : List (List Bool)
  projectq_statevector : List Cplx
  sv_samples : List Nat
  qdk_frequencies_list : List ℚ
deriving Repr

/-- `Simulator._statevector_to_frequencies` (source lines 401-436):
probability of basis index `i` is `|amplitude|^2`; entries with
probability `>= freq_threshold` are kept under the key
`__int_to_binstr(i, n_qubits)`.  If `n_shots` is falsy the exact sparse
table is returned; otherwise the empirical frequencies `count/n_shots`
of the `rv_discrete` draws (`samples`, an oracle input) are returned,
keyed through `__int_to_binstr` again. -/
def statevector_to_frequencies (order : Option String) (threshold : ℚ)
    (n_shots : Option Nat) (samples : List Nat) (statevector : List Cplx) :
    List (List Bool × ℚ) :=
  let n_qubits := Nat.log2 statevector.length
  let frequencies := statevector.enum.filterMap (fun p =>
    if p.2.absSq - threshold ≥ 0 then
      some (int_to_binstr order p.1 n_qubits, p.2.absSq)
    else none)
  if !(optTruthy n_shots) then frequencies
  else
    let m : ℚ := ((n_shots.getD 0 : Nat) : ℚ)
    (counter samples).map (fun p => (int_to_binstr order p.1 n_qubits, (p.2 : ℚ) / m))

/-- The support `xk` that `_statevector_to_frequencies` hands to
`scipy.stats.rv_discrete` (source lines 428-431): each retained key,
reversed and parsed back as a binary integer. -/
def sv_freq_support (order : Option String) (threshold : ℚ)
    (statevector : List Cplx) : List Nat :=
  (statevector_to_frequencies order threshold none [] statevector).map
    (fun p => bitsToNat p.1.reverse)

/-- The qdk branch's frequency table (source lines 229-232): the Q#
frequency array is keyed by `bin(i)`, then each key is zero-padded to
the circuit width and reversed, keeping values strictly above
`freq_threshold`. -/
def qdk_freqs (width : Nat) (threshold : ℚ)
    (frequencies_list : List ℚ) : List (List Bool × ℚ) :=
  frequencies_list.enum.filterMap (fun p =>
    if p.2 > threshold then
      some ((padBits (natToBinList p.1) width).reverse, p.2)
    else none)

/-- The errors `Simulator.simulate` can raise before reaching a backend
(mixed state without shots, width-0 circuit, qiskit's refusal to load an
initial state under a noise model); `UnknownTarget` models the source
falling off the end of the target dispatch. -/
inductive SimError
  | MixedStateShots
  | EmptyCircuitWidth
  | QiskitInitialStateNoise
  | UnknownTarget
deriving DecidableEq, Repr

/-- The value `Simulator.simulate` returns: the frequency table, the
optional statevector, and whether a backend branch was entered
(`false` only on the empty-circuit fast path, which returns before any
dispatch). -/
structure SimResult where
  frequencies : List (List Bool × ℚ)
  statevector : Option (List Cplx)
  backendInvoked : Bool
deriving DecidableEq, Repr

/-- `Simulator.simulate` (source lines 72-233).  Preconditions: a
mixed-state circuit with a falsy shot count and a width-0 circuit raise.
Fast path: a gate-free circuit returns `{'0'*width: 1.0}` and, if
requested, the all-zero statevector of dimension `2^width`, touching no
backend.  Otherwise the target branch post-processes the oracle's raw
backend output exactly as the source does: qulacs/projectq mixed or
noisy runs build `Counter(samples)` tables (qulacs keys through
`__int_to_binstr`, projectq keys are the raw joined per-qubit strings);
qiskit noisy runs reverse each counts key and force the statevector off;
exact statevector runs go through `_statevector_to_frequencies`; the qdk
branch keys `bin(i)` zero-padded then reversed, keeping values strictly
above the threshold, and never returns a statevector. -/
def Simulator.simulate (s : Simulator) (oracle : BackendOracle)
    (source_circuit : Circuit) (return_statevector : Bool)
    (initial_statevector : Option (List Cplx)) : Except SimError SimResult :=
  if source_circuit.is_mixed_state && !(optTruthy s.n_shots) then
    .error .MixedStateShots
  else if source_circuit.width = 0 then
    .error .EmptyCircuitWidth
  else if source_circuit.size = 0 then
    .ok ⟨[(List.replicate source_circuit.width false, (1 : ℚ))],
         if return_statevector then
           some ((⟨1, 0⟩ : Cplx) ::
             List.replicate (2 ^ source_circuit.width - 1) (⟨0, 0⟩ : Cplx))
         else none,
         false⟩
  else if s.target == "qulacs" then
    if source_circuit.is_mixed_state || s.noise_model then
      let m : ℚ := ((s.n_shots.getD 0 : Nat) : ℚ)
      .ok ⟨(counter oracle.qulacs_samples).map (fun p =>
              (int_to_binstr s.statevector_order p.1 source_circuit.width,
               (p.2 : ℚ) / m)),
           none, true⟩
    else
      let sv := oracle.qulacs_statevector
      .ok ⟨statevector_to_frequencies s.statevector_order s.freq_threshold
             s.n_shots oracle.sv_samples sv,
           if return_statevector then some sv else none, true⟩
  else if s.target == "qiskit" then
    if initial_statevector.isSome && s.noise_model then
      .error .QiskitInitialStateNoise
    else if s.noise_model || source_circuit.is_mixed_state then
      let m : ℚ := ((s.n_shots.getD 0 : Nat) : ℚ)
      .ok ⟨oracle.qiskit_counts.map (fun p => (p.1.reverse, (p.2 : ℚ) / m)),
           none, true⟩
    else
      let sv := oracle.qiskit_statevector
      .ok ⟨statevector_to_frequencies s.statevector_order s.freq_threshold
             s.n_shots oracle.sv_samples sv,
           if return_statevector then some sv else none, true⟩
  else if s.target == "projectq" then
    if source_circuit.is_mixed_state then
      let m : ℚ := ((s.n_shots.getD 0 : Nat) : ℚ)
      .ok ⟨(counter oracle.projectq_samples).map (fun p => (p.1, (p.2 : ℚ) / m)),
           none, true⟩
    else
      let sv := oracle.projectq_statevector
      .ok ⟨statevector_to_frequencies s.statevector_order s.freq_threshold
             s.n_shots oracle.sv_samples sv,
           if return_statevector then some sv else none, true⟩
  else if s.target == "qdk" then
    .ok ⟨qdk_freqs source_circuit.width s.freq_threshold
           oracle.qdk_frequencies_list,
         none, true⟩
  else .error .UnknownTarget

/-- A Pauli term in openfermion style: a list of (qubit index, Pauli
label) pairs. -/
abbrev Term := List (Nat × String)

/-- A qubit operator: terms with complex coefficients, in insertion
order of the underlying dict. -/
abbrev QubitOperator := List (Term × Cplx)

/-- The validation/mutation loop opening `get_expectation_value` (source
lines 255-258): for each term in order, raise if
`state_prep_circuit.width < len(term)`, else overwrite the coefficient
with its real part (`coef.real`).  `none` models the raise; `some`
returns the operator as the loop leaves it. -/
def termWidthRealify (width : Nat) : QubitOperator → Option QubitOperator
  | [] => some []
  | (term, coef) :: rest =>
    if width < term.length then none
    else
      match termWidthRealify width rest with
      | none => none
      | some rest2 => some ((term, (⟨coef.re, 0⟩ : Cplx)) :: rest2)

/-- Which private engine `get_expectation_value` dispatches to (source
lines 260-264). -/
inductive GevStrategy
  | fromFrequencies
  | fromStatevector
deriving DecidableEq, Repr

/-- The caller-observable outcome of `get_expectation_value`'s
validation and dispatch phase: the operator object as mutated in place,
and the engine selected.  (The numeric reduction itself runs through the
backend oracle and is outside this record.) -/
structure GevOutcome where
  mutated_operator : QubitOperator
  strategy : GevStrategy
deriving DecidableEq, Repr

/-- `Simulator.get_expectation_value` (source lines 235-264), up to the
numeric reduction: run the per-term width check and in-place coefficient
realification, then select the frequencies-based engine when a noise
model is present, the statevector is unavailable, the circuit is mixed
state, or the circuit has no gates; the statevector-based engine
otherwise.  `none` models the width-check raise. -/
def Simulator.get_expectation_value (s : Simulator)
    (qubit_operator : QubitOperator) (state_prep_circuit : Circuit) :
    Option GevOutcome :=
  match termWidthRealify state_prep_circuit.width qubit_operator with
  | none => none
  | some op2 =>
    if s.noise_model || !s.statevector_available
        || state_prep_circuit.is_mixed_state || state_prep_circuit.size == 0 then
      some ⟨op2, .fromFrequencies⟩
    else
      some ⟨op2, .fromStatevector⟩

/-- A Python value as returned (not raised) by
`get_expectation_value_from_frequencies_oneterm`: either the `ValueError`
object the source returns on an empty table, or a number. -/
inductive PyValue
  | err (msg : String)
  | num (q : ℚ)
deriving DecidableEq, Repr

/-- The mask-building loop of the source (lines 387-390):
`mask = ["0"]*n_qubits; for index, op in term: mask[index] = "1"`.
`none` models the `IndexError` Python raises when a term index is out of
range. -/
def buildMask (n_qubits : Nat) (term : Term) : Option (List Bool) :=
  term.foldlM (fun mask p =>
      if p.1 < mask.length then some (mask.set p.1 true) else none)
    (List.replicate n_qubits false)

/-- `bitarray(mask) & bitarray(basis_state)`: bitwise AND, an error
(`none`) if the lengths differ, as `bitarray` raises. -/
def bitAnd (a b : List Bool) : Option (List Bool) :=
  if a.length = b.length then some (List.zipWith and a b) else none

/-- `Simulator.get_expectation_value_from_frequencies_oneterm` (source
lines 369-399).  On an empty table the source executes
`return ValueError(...)` — it returns the exception object as a normal
value, modelled as `some (.err ...)`.  Otherwise `n_qubits` is the
length of the first key, the term mask is built, and each entry
contributes `(-1)^(popcount(mask & basis_state) mod 2) * frequency`.
An uncaught Python exception (IndexError, bitarray length mismatch) is
`none`. -/
def get_expectation_value_from_frequencies_oneterm (term : Term)
    (frequencies : List (List Bool × ℚ)) : Option PyValue :=
  match frequencies with
  | [] => some (.err "Must pass a non-empty dictionary of frequencies.")
  | (k0, _) :: _ =>
    let n_qubits := k0.length
    match buildMask n_qubits term with
    | none => none
    | some mask =>
      match frequencies.foldlM (fun (acc : ℚ) p =>
          match bitAnd mask p.1 with
          | none => none
          | some ab =>
            some (acc + (if (ab.count true) % 2 = 0 then (1 : ℚ) else -1) * p.2))
        (0 : ℚ) with
      | none => none
      | some v => some (.num v)

/-- One gate of the IonQ JSON program: lower-cased gate name, target,
optional rotation, optional control. -/
structure IonqGate where
  gate : String
  target : Nat
  rotation : Option ℚ
  control : Option Nat
deriving DecidableEq, Repr

/-- The IonQ JSON circuit: `{"qubits": width, "circuit": gates}`. -/
structure IonqCircuit where
  qubits : Nat
  circuit : List IonqGate
deriving DecidableEq, Repr

/-- `get_ionq_gates` (translator source lines 26-36): abstract gate name
to its lower-case IonQ name, for the ten supported names. -/
def GATE_JSON_IONQ : String → Option String
  | "H" => some "h"
  | "X" => some "x"
  | "Y" => some "y"
  | "Z" => some "z"
  | "S" => some "s"
  | "T" => some "t"
  | "RX" => some "rx"
  | "RY" => some "ry"
  | "RZ" => some "rz"
  | "CNOT" => some "cnot"
  | _ => none

/-- The error message of the translator's final `else` branch, naming
the offending gate in single quotes as the source f-string does. -/
def ionqErrMsg (name : String) : String :=
  "Gate \x27" ++ name ++ "\x27 not supported with JSON IonQ translation"

/-- The per-gate body of the `translate_json_ionq` loop (source lines
56-63): fixed single-qubit gates emit `{gate, target}`, rotations add
`rotation`, CNOT adds `control`, anything else raises naming the gate. -/
def translateIonqGate (g : Gate) : Except String IonqGate :=
  if g.name ∈ ["H", "X", "Y", "Z", "S", "T"] then
    .ok ⟨(GATE_JSON_IONQ g.name).getD "", g.target, none, none⟩
  else if g.name ∈ ["RX", "RY", "RZ"] then
    .ok ⟨(GATE_JSON_IONQ g.name).getD "", g.target, g.parameter, none⟩
  else if g.name ∈ ["CNOT"] then
    .ok ⟨(GATE_JSON_IONQ g.name).getD "", g.target, none, g.control⟩
  else
    .error (ionqErrMsg g.name)

/-- The `for gate in source_circuit._gates` loop of `translate_json_ionq`
(translator source lines 54-63): translate the gates in order, raising at
the first unsupported one. -/
def translateIonqGates : List Gate → Except String (List IonqGate)
  | [] => .ok []
  | g :: gs =>
    match translateIonqGate g with
    | .error e => .error e
    | .ok y =>
      match translateIonqGates gs with
      | .error e => .error e
      | .ok ys => .ok (y :: ys)

/-- `translate_json_ionq` (translator source lines 39-66). -/
def translate_json_ionq (source_circuit : Circuit) : Except String IonqCircuit :=
  match translateIonqGates source_circuit.gates with
  | .error e => .error e
  | .ok gs => .ok ⟨source_circuit.width, gs⟩

/-- The gate names the IonQ JSON translator accepts. -/
def ionqSupported (name : String) : Bool :=
  name ∈ ["H", "X", "Y", "Z", "S", "T", "RX", "RY", "RZ", "CNOT"]

/-- Spec-side term-qubit mask: bit `i` is set iff the term references
qubit `i` (written from the spec's words, independently of the source's
mask-building loop). -/
def termMask (n : Nat) (term : Term) : List Bool :=
  (List.range n).map (fun i => term.any (fun p => p.1 == i))

/-- Spec-side signed-parity reduction: each observed bitstring
contributes `+1` if the AND of the term mask with it has an even number
of ones, `-1` otherwise, times its frequency; written from the spec's
words, independently of the source's fold. -/
def signedParitySum (term : Term) (n : Nat)
    (frequencies : List (List Bool × ℚ)) : ℚ :=
  (frequencies.map (fun p =>
    (if ((List.zipWith and (termMask n term) p.1).count true) % 2 = 0
     then (1 : ℚ) else -1) * p.2)).sum

theorem natToBinCore_succ (i : Nat) :
    natToBinCore (i + 1) = natToBinCore ((i + 1) / 2) ++ [(i + 1) % 2 == 1] := by
  rw [natToBinCore]

theorem natToBinCore_one : natToBinCore 1 = [true] := by
  rw [natToBinCore_succ]
  norm_num
  rw [natToBinCore]

theorem bitsToNat_append_singleton (l : List Bool) (b : Bool) :
    bitsToNat (l ++ [b]) = 2 * bitsToNat l + (if b then 1 else 0) := by
  simp [bitsToNat, List.foldl_append]

theorem bitsToNat_natToBinCore (i : Nat) : bitsToNat (natToBinCore i) = i := by
  induction i using Nat.strong_induction_on with
  | _ i ih =>
    match i with
    | 0 => simp [natToBinCore, bitsToNat]
    | j + 1 =>
      rw [natToBinCore_succ, bitsToNat_append_singleton,
        ih ((j + 1) / 2) (Nat.div_lt_self (Nat.succ_pos j) one_lt_two)]
      rcases Nat.mod_two_eq_zero_or_one (j + 1) with h2 | h2 <;> simp [h2] <;> omega

theorem bitsToNat_replicate_false_append (k : Nat) (l : List Bool) :
    bitsToNat (List.replicate k false ++ l) = bitsToNat l := by
  induction k with
  | zero => simp
  | succ n ih =>
    have h : bitsToNat (false :: (List.replicate n false ++ l))
        = bitsToNat (List.replicate n false ++ l) := by
      simp [bitsToNat]
    simpa [List.replicate_succ] using h.trans ih

theorem bitsToNat_padBits (bs : List Bool) (n : Nat) :
    bitsToNat (padBits bs n) = bitsToNat bs :=
  bitsToNat_replicate_false_append _ _

theorem bitsToNat_natToBinList (i : Nat) : bitsToNat (natToBinList i) = i := by
  unfold natToBinList
  split
  · subst i; simp [bitsToNat]
  · exact bitsToNat_natToBinCore i

/-- Claim C1 (code bug witness): `get_expectation_value` compares the
circuit width against the *length* of each term, not against the qubit
indices it references, so the operator `{((5, 'Z'),): 1.0}` — which
references qubit 5 — passes the check on a width-1 circuit and the call
proceeds to the statevector engine instead of raising
`OperatorWidthError`. -/
theorem gev_width_check_misses_high_qubit_index :
    (Simulator.mk "qulacs" none false 0 true (some "msq_first") true).get_expectation_value
        [([(5, "Z")], ⟨1, 0⟩)] ⟨1, [⟨"X", 0, none, none⟩]⟩
      = some ⟨[([(5, "Z")], ⟨1, 0⟩)], .fromStatevector⟩
    ∧ 1 ≤ 5 := by
  exact ⟨rfl, by omega⟩

/-- Claim C2 (code bug witness): on an empty frequencies dictionary the
source executes `return ValueError(...)` rather than `raise`, so
`get_expectation_value_from_frequencies_oneterm` returns normally,
handing the caller the exception object as its value. -/
theorem oneterm_empty_frequencies_returns_error_object :
    get_expectation_value_from_frequencies_oneterm [(0, "Z")] []
      = some (.err "Must pass a non-empty dictionary of frequencies.") := rfl

/-- Claim C3: for every gate-free circuit of positive width, and every
simulator configuration and backend oracle, `simulate` returns the
frequency table `{'0'*width: 1.0}` exactly, the all-zero-state vector of
dimension `2^width` iff a statevector was requested, and invokes no
backend. -/
theorem simulate_empty_circuit_fast_path (s : Simulator) (oracle : BackendOracle)
    (c : Circuit) (rsv : Bool) (isv : Option (List Cplx))
    (hsize : c.size = 0) (hw : 0 < c.width) :
    s.simulate oracle c rsv isv =
      .ok ⟨[(List.replicate c.width false, 1)],
           if rsv then
             some ((⟨1, 0⟩ : Cplx) :: List.replicate (2 ^ c.width - 1) ⟨0, 0⟩)
           else none,
           false⟩ := by
  have hg : c.gates = [] := List.length_eq_zero.mp hsize
  unfold Simulator.simulate
  simp [Circuit.is_mixed_state, hg, hsize, Circuit.size, Nat.pos_iff_ne_zero.mp hw]

/-- Witness for C3: a concrete gate-free width-2 circuit on the qiskit
configuration, with the statevector requested. -/
theorem simulate_empty_circuit_fast_path_witness :
    (Simulator.mk "qiskit" none false 0 true (some "msq_first") true).simulate
        ⟨[], [], [], [], [], [], [], []⟩ ⟨2, []⟩ true none
      = .ok ⟨[([false, false], 1)], some [⟨1, 0⟩, ⟨0, 0⟩, ⟨0, 0⟩, ⟨0, 0⟩], false⟩ := by
  have h := simulate_empty_circuit_fast_path
    (Simulator.mk "qiskit" none false 0 true (some "msq_first") true)
    ⟨[], [], [], [], [], [], [], []⟩ ⟨2, []⟩ true none rfl (by decide)
  simpa using h

/-- Claim C4: `Simulator.__init__` validates in order: a noise model on
a backend whose descriptor rejects noisy simulation raises
`UnsupportedNoiseModelError` first; otherwise a null shot count combined
with an unavailable statevector or a present noise model raises
`ShotsRequiredError`.  In either case construction aborts with the
error, so no backend call can be performed. -/
theorem init_validation_order (target : String) (n_shots : Option Nat)
    (nm : Bool) (info : BackendInfo) (hinfo : backend_info target = some info) :
    (nm = true → info.noisy_simulation = false →
      Simulator.init target n_shots nm = .error .UnsupportedNoiseModel)
    ∧ (¬(nm = true ∧ info.noisy_simulation = false) → n_shots = none →
        (info.statevector_available = false ∨ nm = true) →
        Simulator.init target n_shots nm = .error .ShotsRequired) := by
  constructor
  · intro h1 h2
    unfold Simulator.init
    rw [hinfo]
    simp [h1, h2]
  · intro h1 h2 h3
    unfold Simulator.init
    rw [hinfo]
    subst h2
    cases nm <;> cases hns : info.noisy_simulation <;>
      cases hsv : info.statevector_available <;>
      simp_all [optTruthy]

/-- Witness for C4: `projectq` (descriptor rejects noise) with a noise
model raises `UnsupportedNoiseModelError`; `qdk` (no statevector) with a
null shot count raises `ShotsRequiredError`. -/
theorem init_validation_order_witness :
    Simulator.init "projectq" (some 10) true = .error .UnsupportedNoiseModel
    ∧ Simulator.init "qdk" none false = .error .ShotsRequired := by
  constructor
  · exact (init_validation_order "projectq" (some 10) true
      ⟨true, some "msq_first", false⟩ rfl).1 rfl rfl
  · exact (init_validation_order "qdk" none false
      ⟨false, none, false⟩ rfl).2 (by simp) rfl (Or.inl rfl)

/-- Counterexample to claim C9 as stated: the empty-circuit fast path
runs before the target dispatch, so even with target `qdk`
(`statevector_available = False`) a gate-free circuit with
`return_statevector = True` gets a statevector back, not `None`. -/
theorem qdk_fast_path_returns_statevector :
    (Simulator.mk "qdk" (some 1) false 0 false none false).simulate
        ⟨[], [], [], [], [], [], [], []⟩ ⟨1, []⟩ true none
      = .ok ⟨[([false], 1)], some [⟨1, 0⟩, ⟨0, 0⟩], false⟩
    ∧ (some [(⟨1, 0⟩ : Cplx), ⟨0, 0⟩] : Option (List Cplx)) ≠ none := by
  exact ⟨rfl, by simp⟩

/-- Claim C9 as amended: for every circuit that actually contains gates,
a `qdk`-targeted `simulate` that returns at all returns `None` in the
statevector position, whatever the arguments. -/
theorem qdk_simulate_statevector_none (s : Simulator) (oracle : BackendOracle)
    (c : Circuit) (rsv : Bool) (isv : Option (List Cplx)) (r : SimResult)
    (ht : s.target = "qdk") (hsize : c.size ≠ 0)
    (h : s.simulate oracle c rsv isv = .ok r) :
    r.statevector = none := by
  unfold Simulator.simulate at h
  rw [ht] at h
  simp only [show (("qdk" == "qulacs") = false) from rfl,
    show (("qdk" == "qiskit") = false) from rfl,
    show (("qdk" == "projectq") = false) from rfl,
    show (("qdk" == "qdk") = true) from rfl,
    Bool.false_eq_true, if_false, if_true, hsize] at h
  split at h
  · simp at h
  · split at h
    · simp at h
    · simp only [Except.ok.injEq] at h
      rw [← h]

/-- Witness for the amended C9: a concrete one-gate width-2 circuit on
`qdk` whose simulation succeeds with statevector `None`. -/
theorem qdk_simulate_statevector_none_witness :
    SimResult.statevector ⟨[([true, false], 1)], none, true⟩ = none := by
  apply qdk_simulate_statevector_none
    (Simulator.mk "qdk" (some 1) false 0 false none false)
    ⟨[], [], [], [], [], [], [], [0, 1, 0, 0]⟩ ⟨2, [⟨"H", 0, none, none⟩]⟩
    false none ⟨[([true, false], 1)], none, true⟩ rfl (by decide)
  simp [Simulator.simulate, qdk_freqs, Circuit.is_mixed_state, Circuit.size, optTruthy]
  norm_num [List.enum, List.enumFrom, padBits, natToBinList, List.filterMap_cons,
    natToBinCore_one]

theorem termWidthRealify_eq_map (w : Nat) (op op2 : QubitOperator)
    (h : termWidthRealify w op = some op2) :
    op2 = op.map (fun p => (p.1, (⟨p.2.re, 0⟩ : Cplx))) := by
  induction op generalizing op2 with
  | nil =>
    simp only [termWidthRealify, Option.some.injEq] at h
    rw [← h]
    rfl
  | cons hd tl ih =>
    unfold termWidthRealify at h
    split at h
    · simp at h
    · cases htl : termWidthRealify w tl with
      | none => rw [htl] at h; simp at h
      | some rest2 =>
        rw [htl] at h
        simp only [Option.some.injEq] at h
        rw [← h]
        simp [ih rest2 htl]

/-- Claim C10: whenever `get_expectation_value` passes the per-term
width check (returns rather than raising), the operator object the
caller passed in has had every coefficient overwritten in place by the
real part of its original value. -/
theorem gev_mutates_operator_coefficients (s : Simulator) (op : QubitOperator)
    (c : Circuit) (out : GevOutcome) (h : s.get_expectation_value op c = some out) :
    out.mutated_operator = op.map (fun p => (p.1, (⟨p.2.re, 0⟩ : Cplx))) := by
  unfold Simulator.get_expectation_value at h
  cases hr : termWidthRealify c.width op with
  | none => rw [hr] at h; simp at h
  | some op2 =>
    rw [hr] at h
    dsimp only at h
    have heq : out.mutated_operator = op2 := by
      split at h <;> (injection h with h2; rw [← h2])
    rw [heq]
    exact termWidthRealify_eq_map c.width op op2 hr

/-- Witness for C10: a two-term operator with complex coefficients on a
width-2 circuit; both stored coefficients come back realified. -/
theorem gev_mutates_operator_coefficients_witness :
    GevOutcome.mutated_operator
        ⟨[([(0, "Z")], ⟨2, 0⟩), ([(0, "X"), (1, "Y")], ⟨5, 0⟩)], .fromStatevector⟩
      = [([(0, "Z")], (⟨2, 0⟩ : Cplx)), ([(0, "X"), (1, "Y")], ⟨5, 0⟩)] := by
  exact gev_mutates_operator_coefficients
    (Simulator.mk "qulacs" none false 0 true (some "msq_first") true)
    [([(0, "Z")], ⟨2, 3⟩), ([(0, "X"), (1, "Y")], ⟨5, -7⟩)]
    ⟨2, [⟨"H", 0, none, none⟩]⟩
    ⟨[([(0, "Z")], ⟨2, 0⟩), ([(0, "X"), (1, "Y")], ⟨5, 0⟩)], .fromStatevector⟩
    rfl

/-- Counterexample to claim C7 as stated: the IonQ JSON translator does
not support MEASURE — a circuit holding a single MEASURE gate is
rejected with the unsupported-gate error instead of being translated. -/
theorem ionq_translator_rejects_measure :
    translate_json_ionq ⟨1, [⟨"MEASURE", 0, none, none⟩]⟩
      = .error (ionqErrMsg "MEASURE") := rfl


theorem translateIonqGate_error_shape (g : Gate) (e : String)
    (h : translateIonqGate g = .error e) :
    ionqSupported g.name = false ∧ e = ionqErrMsg g.name := by
  unfold translateIonqGate at h
  split at h
  · simp at h
  · split at h
    · simp at h
    · split at h
      · simp at h
      · next h1 h2 h3 =>
        injection h with h4
        refine ⟨?_, h4.symm⟩
        simp only [ionqSupported, List.mem_cons, List.not_mem_nil, or_false,
          decide_eq_true_eq] at h1 h2 h3 ⊢
        simp only [decide_eq_false_iff_not]
        tauto

theorem translateIonqGate_ok_of_supported (g : Gate)
    (h : ionqSupported g.name = true) : ∃ y, translateIonqGate g = .ok y := by
  cases hg : translateIonqGate g with
  | ok y => exact ⟨y, rfl⟩
  | error e =>
    have h2 := (translateIonqGate_error_shape g e hg).1
    rw [h] at h2
    exact absurd h2 (by simp)

theorem translateIonqGates_ok (gs : List Gate)
    (h : ∀ g ∈ gs, ionqSupported g.name = true) :
    ∃ ys, translateIonqGates gs = .ok ys := by
  induction gs with
  | nil => exact ⟨[], rfl⟩
  | cons a l ih =>
    obtain ⟨y, hy⟩ := translateIonqGate_ok_of_supported a (h a (by simp))
    obtain ⟨ys, hys⟩ := ih (fun g hg => h g (by simp [hg]))
    exact ⟨y :: ys, by unfold translateIonqGates; rw [hy, hys]⟩

theorem translateIonqGates_error (gs : List Gate) (e : String)
    (h : translateIonqGates gs = .error e) :
    ∃ g ∈ gs, ionqSupported g.name = false ∧ e = ionqErrMsg g.name := by
  induction gs with
  | nil => simp [translateIonqGates] at h
  | cons a l ih =>
    unfold translateIonqGates at h
    cases ha : translateIonqGate a with
    | error e2 =>
      rw [ha] at h
      injection h with he
      obtain ⟨h1, h2⟩ := translateIonqGate_error_shape a e2 ha
      exact ⟨a, by simp, h1, by rw [← he]; exact h2⟩
    | ok y =>
      rw [ha] at h
      cases hl : translateIonqGates l with
      | error e3 =>
        rw [hl] at h
        injection h with he
        obtain ⟨g, hg, hgs⟩ := ih (he ▸ hl)
        exact ⟨g, by simp [hg], hgs⟩
      | ok ys => rw [hl] at h; simp at h

theorem translateIonqGate_error_of_unsupported (g : Gate)
    (h : ionqSupported g.name = false) :
    translateIonqGate g = .error (ionqErrMsg g.name) := by
  simp only [ionqSupported, List.mem_cons, List.not_mem_nil, or_false,
    decide_eq_false_iff_not] at h
  push_neg at h
  obtain ⟨h1, h2, h3, h4, h5, h6, h7, h8, h9, h10⟩ := h
  unfold translateIonqGate
  rw [if_neg (by simp [h1, h2, h3, h4, h5, h6]),
    if_neg (by simp [h7, h8, h9]), if_neg (by simp [h10])]

theorem translateIonqGates_first_error (gs2 : List Gate) (g : Gate)
    (gs3 : List Gate) (h2 : ∀ g2 ∈ gs2, ionqSupported g2.name = true)
    (hg : ionqSupported g.name = false) :
    translateIonqGates (gs2 ++ g :: gs3) = .error (ionqErrMsg g.name) := by
  induction gs2 with
  | nil =>
    rw [List.nil_append]
    unfold translateIonqGates
    rw [translateIonqGate_error_of_unsupported g hg]
  | cons a l ih =>
    rw [List.cons_append]
    unfold translateIonqGates
    obtain ⟨y, hy⟩ := translateIonqGate_ok_of_supported a (h2 a (by simp))
    rw [hy, ih (fun g2 hg2 => h2 g2 (by simp [hg2]))]

/-- Claim C7 as amended: the IonQ JSON translator supports exactly the
abstract gates H, X, Y, Z, S, T, RX, RY, RZ and CNOT — MEASURE is not
expressible.  A circuit whose gates are all in that set translates; a
circuit containing any gate outside it (MEASURE included) fails, with
the named error naming the first such offending gate; and conversely
every failure names an unsupported gate of the circuit. -/
theorem ionq_translator_gate_support (c : Circuit) :
    ((∀ g ∈ c.gates, ionqSupported g.name = true) →
      ∃ r, translate_json_ionq c = .ok r)
    ∧ (∀ gs2 gs3 : List Gate, ∀ g : Gate, c.gates = gs2 ++ g :: gs3 →
        (∀ g2 ∈ gs2, ionqSupported g2.name = true) →
        ionqSupported g.name = false →
        translate_json_ionq c = .error (ionqErrMsg g.name))
    ∧ (∀ e, translate_json_ionq c = .error e →
        ∃ g ∈ c.gates, ionqSupported g.name = false ∧ e = ionqErrMsg g.name) := by
  refine ⟨?_, ?_, ?_⟩
  · intro h
    obtain ⟨ys, hys⟩ := translateIonqGates_ok c.gates h
    exact ⟨⟨c.width, ys⟩, by unfold translate_json_ionq; rw [hys]⟩
  · intro gs2 gs3 g hsplit h2 hg
    unfold translate_json_ionq
    rw [hsplit, translateIonqGates_first_error gs2 g gs3 h2 hg]
  · intro e h
    unfold translate_json_ionq at h
    cases hm : translateIonqGates c.gates with
    | error e2 =>
      rw [hm] at h
      injection h with h2
      exact h2 ▸ translateIonqGates_error c.gates e2 hm
    | ok ys => rw [hm] at h; simp at h

/-- Witness for the amended C7: a circuit over supported gates
translates; a circuit holding a MEASURE between supported gates fails
naming MEASURE; and the failure is traced back to the MEASURE gate. -/
theorem ionq_translator_gate_support_witness :
    (∃ r, translate_json_ionq
        ⟨2, [⟨"H", 0, none, none⟩, ⟨"RX", 1, none, some (1/2)⟩,
             ⟨"CNOT", 1, some 0, none⟩]⟩ = .ok r)
    ∧ translate_json_ionq
        ⟨1, [⟨"H", 0, none, none⟩, ⟨"MEASURE", 0, none, none⟩,
             ⟨"X", 0, none, none⟩]⟩
      = .error (ionqErrMsg "MEASURE")
    ∧ (∃ g ∈ (⟨1, [⟨"MEASURE", 0, none, none⟩]⟩ : Circuit).gates,
        ionqSupported g.name = false
        ∧ ionqErrMsg "MEASURE" = ionqErrMsg g.name) := by
  refine ⟨?_, ?_, ?_⟩
  · exact (ionq_translator_gate_support _).1 (by decide)
  · exact (ionq_translator_gate_support _).2.1 [⟨"H", 0, none, none⟩]
      [⟨"X", 0, none, none⟩] ⟨"MEASURE", 0, none, none⟩ rfl (by decide) (by decide)
  · exact (ionq_translator_gate_support _).2.2 (ionqErrMsg "MEASURE") rfl

/-- Counterexample to claim C5 as stated: `backend_info` declares
`statevector_order = None` for `qdk`, so routing a basis-state integer
through `__int_to_binstr` with qdk's declared order applies no reversal
— yet the qdk branch of `simulate` reverses unconditionally.  On a
width-2 circuit whose Q# frequency array puts weight 1 on basis index 1,
the branch emits the key `"10"` while the normalization point emits
`"01"`. -/
theorem qdk_key_bypasses_normalization_point :
    (Simulator.mk "qdk" (some 1) false 0 false none false).simulate
        ⟨[], [], [], [], [], [], [], [0, 1, 0, 0]⟩ ⟨2, [⟨"H", 0, none, none⟩]⟩
        false none
      = .ok ⟨[([true, false], 1)], none, true⟩
    ∧ (backend_info "qdk").map (fun info => int_to_binstr info.statevector_order 1 2)
      = some [false, true]
    ∧ ([true, false] : List Bool) ≠ [false, true] := by
  refine ⟨?_, ?_, by simp⟩
  · simp [Simulator.simulate, qdk_freqs, Circuit.is_mixed_state, Circuit.size,
      optTruthy]
    norm_num [List.enum, List.enumFrom, padBits, natToBinList, List.filterMap_cons,
      natToBinCore_one]
  · simp [backend_info, int_to_binstr, padBits, natToBinList, natToBinCore_one]

/-- Claim C5 as amended: `__int_to_binstr` is the conversion the claim
describes — ordinary binary (decoding back to the integer), zero-padded
on the left, reversed exactly when the order argument is `msq_first` —
and the statevector paths and the qulacs sampling path route through it
with the backend's declared order; but the qdk branch instead reverses
its keys unconditionally, producing for every retained index the
`msq_first` conversion even though qdk's declared order is `None` (and
the qiskit noisy and projectq mixed-state branches build their keys from
raw backend strings without calling it). -/
theorem int_to_binstr_normalization (i n w : Nat) (t : ℚ) (lst : List ℚ) :
    bitsToNat (natToBinList i) = i
    ∧ int_to_binstr (some "msq_first") i n = (padBits (natToBinList i) n).reverse
    ∧ int_to_binstr none i n = padBits (natToBinList i) n
    ∧ (qdk_freqs w t lst).map Prod.fst
      = lst.enum.filterMap (fun p =>
          if p.2 > t then some (int_to_binstr (some "msq_first") p.1 w) else none) := by
  refine ⟨bitsToNat_natToBinList i, rfl, rfl, ?_⟩
  unfold qdk_freqs
  rw [List.map_filterMap]
  congr 1
  funext p
  split <;> simp [int_to_binstr]

/-- Claim C6: `_statevector_to_frequencies` retains exactly the basis
states with `|amplitude|^2 ≥ freq_threshold` (membership in the exact
table is equivalent to being a retained index's entry); with a falsy
`n_shots` it returns those exact probabilities; with `n_shots` set it
returns the empirical frequencies `count/n_shots` of the categorical
draws keyed through `__int_to_binstr`; and the support handed to the
sampler is exactly the retained basis indices (sampling happens over the
retained distribution). -/
theorem statevector_to_frequencies_spec (order : Option String) (t : ℚ)
    (samples : List Nat) (sv : List Cplx) (m : Nat) :
    (∀ pr : List Bool × ℚ,
      pr ∈ statevector_to_frequencies order t none samples sv ↔
        ∃ i, ∃ h : i < sv.length,
          t ≤ (sv.get ⟨i, h⟩).absSq
          ∧ pr = (int_to_binstr order i (Nat.log2 sv.length),
                  (sv.get ⟨i, h⟩).absSq))
    ∧ statevector_to_frequencies order t (some (m + 1)) samples sv
      = (counter samples).map (fun p =>
          (int_to_binstr order p.1 (Nat.log2 sv.length),
           (p.2 : ℚ) / ((m + 1 : Nat) : ℚ)))
    ∧ sv_freq_support (some "msq_first") t sv
      = sv.enum.filterMap (fun p =>
          if p.2.absSq - t ≥ 0 then some p.1 else none) := by
  refine ⟨?_, ?_, ?_⟩
  · intro pr
    unfold statevector_to_frequencies
    simp only [optTruthy, Bool.not_false, if_true]
    rw [List.mem_filterMap]
    constructor
    · rintro ⟨a, ha, hfa⟩
      rw [List.mem_enum_iff_get?] at ha
      obtain ⟨hlt, hget⟩ := List.get?_eq_some.mp ha
      split at hfa
      · next hc =>
        injection hfa with hfa
        refine ⟨a.1, hlt, ?_, ?_⟩
        · rw [hget]; linarith
        · rw [hget, ← hfa]
      · simp at hfa
    · rintro ⟨i, h, hts, hpr⟩
      refine ⟨(i, sv.get ⟨i, h⟩), ?_, ?_⟩
      · rw [List.mem_enum_iff_get?]
        exact List.get?_eq_some.mpr ⟨h, rfl⟩
      · rw [if_pos (by simpa using sub_nonneg.mpr hts)]
        rw [hpr]
  · simp [statevector_to_frequencies, optTruthy]
  · unfold sv_freq_support statevector_to_frequencies
    simp only [optTruthy, Bool.not_false, if_true]
    rw [List.map_filterMap]
    congr 1
    funext p
    split <;> simp [int_to_binstr, List.reverse_reverse, bitsToNat_padBits,
      bitsToNat_natToBinList]

def setFold (term : Term) (mask : List Bool) : List Bool :=
  term.foldl (fun mask p => mask.set p.1 true) mask

theorem setFold_getElem? (term : Term) (mask : List Bool) (i : Nat) :
    (setFold term mask)[i]? =
      if term.any (fun p => p.1 == i) = true ∧ i < mask.length then some true
      else mask[i]? := by
  induction term generalizing mask with
  | nil => simp [setFold]
  | cons a l ih =>
    rw [show setFold (a :: l) mask = setFold l (mask.set a.1 true) from rfl, ih]
    rw [List.length_set]
    by_cases ha : a.1 = i <;> by_cases hl : (l.any (fun p => p.1 == i)) = true <;>
      by_cases hi : i < mask.length
    · simp [ha, hl, hi, List.getElem?_set]
    · have hnone : mask[i]? = none := List.getElem?_eq_none (by omega)
      simp [ha, hl, hi, List.getElem?_set, hnone]
    · simp [ha, hl, hi, List.getElem?_set]
    · have hnone : mask[i]? = none := List.getElem?_eq_none (by omega)
      simp [ha, hl, hi, List.getElem?_set, hnone]
    · simp [ha, hl, hi, List.getElem?_set]
    · simp [ha, hl, hi, List.getElem?_set]
    · simp [ha, hl, hi, List.getElem?_set]
    · simp [ha, hl, hi, List.getElem?_set]

theorem buildMask_eq_setFold (n : Nat) (term : Term)
    (h : ∀ p ∈ term, p.1 < n) :
    buildMask n term = some (setFold term (List.replicate n false)) := by
  have haux : ∀ (t : Term) (mask : List Bool), (∀ p ∈ t, p.1 < mask.length) →
      t.foldlM (fun mask p =>
          if p.1 < mask.length then some (mask.set p.1 true) else none) mask
        = some (setFold t mask) := by
    intro t
    induction t with
    | nil => intro mask _; rfl
    | cons a l ih =>
      intro mask hm
      rw [List.foldlM_cons, if_pos (hm a (by simp))]
      show l.foldlM _ (mask.set a.1 true) = _
      rw [ih (mask.set a.1 true)
        (fun p hp => by rw [List.length_set]; exact hm p (by simp [hp]))]
      rfl
  exact haux term (List.replicate n false) (by simpa using h)

theorem termMask_length (n : Nat) (term : Term) : (termMask n term).length = n := by
  simp [termMask]

theorem buildMask_eq_termMask (n : Nat) (term : Term)
    (h : ∀ p ∈ term, p.1 < n) :
    buildMask n term = some (termMask n term) := by
  rw [buildMask_eq_setFold n term h]
  congr 1
  apply List.ext_getElem?
  intro i
  rw [setFold_getElem?, List.length_replicate]
  by_cases hi : i < n
  · rw [List.getElem?_replicate, if_pos hi]
    rw [termMask, List.getElem?_map, List.getElem?_range hi]
    by_cases hany : (term.any (fun p => p.1 == i)) = true
    · simp [hany, hi]
    · simp [hany, hi]
  · have h1 : (List.replicate n false)[i]? = none :=
      List.getElem?_eq_none (by simpa using Nat.le_of_not_lt hi)
    have h2 : (termMask n term)[i]? = none :=
      List.getElem?_eq_none (by rw [termMask_length]; omega)
    simp [hi, h1, h2]

theorem oneterm_foldlM_sum (mask : List Bool) (freqs : List (List Bool × ℚ))
    (hlen : ∀ p ∈ freqs, p.1.length = mask.length) (acc : ℚ) :
    freqs.foldlM (fun (acc : ℚ) p =>
        match bitAnd mask p.1 with
        | none => none
        | some ab =>
          some (acc + (if (ab.count true) % 2 = 0 then (1 : ℚ) else -1) * p.2))
      acc
      = some (acc + (freqs.map (fun p =>
          (if ((List.zipWith and mask p.1).count true) % 2 = 0 then (1 : ℚ) else -1)
            * p.2)).sum) := by
  induction freqs generalizing acc with
  | nil => simp
  | cons a l ih =>
    rw [List.foldlM_cons]
    have hb : bitAnd mask a.1 = some (List.zipWith and mask a.1) := by
      unfold bitAnd
      rw [if_pos (hlen a (by simp)).symm]
    rw [hb]
    show l.foldlM _ _ = _
    rw [ih (fun p hp => hlen p (by simp [hp]))]
    congr 1
    simp
    ring

/-- Claim C8: on a non-empty frequency table whose keys all share the
width of its first key, and a term whose qubit indices fit that width,
`get_expectation_value_from_frequencies_oneterm` returns exactly the sum
over observed bitstrings of (+1 for even popcount of the AND of the
term-qubit mask with the bitstring, -1 for odd) times the bitstring's
frequency. -/
theorem oneterm_signed_parity (term : Term) (k0 : List Bool) (q0 : ℚ)
    (rest : List (List Bool × ℚ))
    (hkeys : ∀ p ∈ (k0, q0) :: rest, p.1.length = k0.length)
    (hterm : ∀ p ∈ term, p.1 < k0.length) :
    get_expectation_value_from_frequencies_oneterm term ((k0, q0) :: rest)
      = some (.num (signedParitySum term k0.length ((k0, q0) :: rest))) := by
  unfold get_expectation_value_from_frequencies_oneterm
  dsimp only
  rw [buildMask_eq_termMask k0.length term hterm]
  dsimp only
  rw [oneterm_foldlM_sum (termMask k0.length term) ((k0, q0) :: rest)
    (fun p hp => by rw [termMask_length]; exact hkeys p hp) 0]
  rw [signedParitySum]
  norm_num

/-- Witness for C8: the term Z on qubit 0 against the uniform
single-qubit table evaluates through the theorem. -/
theorem oneterm_signed_parity_witness :
    get_expectation_value_from_frequencies_oneterm [(0, "Z")]
        [([true], 1 / 2), ([false], 1 / 2)]
      = some (.num (signedParitySum [(0, "Z")] 1
          [([true], 1 / 2), ([false], 1 / 2)])) := by
  exact oneterm_signed_parity [(0, "Z")] [true] (1 / 2) [([false], 1 / 2)]
    (by decide) (by decide)
